import Mathlib

/-!
Task lifecycle and date normalisation of go_final_project.

A shallow embedding of `pkg/api/addtask.go`, `pkg/api/api.go` and
`pkg/db/task.go`.

* Go strings are `String`; a Go `error` is an `Option String` (`none` is `nil`).
* `time.Now()` is an explicit argument `now`; every handler reads the clock at
  most once, and the read is recorded in the effect trace.
* The packages `scheduler` (AfterNow, NextDate) and most of `db` (GetTask,
  UpdateTask, UpdateDate, DeleteTask, Tasks) are not part of the sources at
  hand.  The handlers are therefore parameterised by an `Engine` and a `Db`
  record holding those functions.
* Every external effect a handler performs (clock read, engine call, store
  call) is appended to a trace of `Call`s, so that "is not invoked" and
  "number of store calls" are statements about that trace.
-/

namespace GoFinal

/-! ## `db.Task` -/

/-- The record `db.Task` of `pkg/db/task.go`. -/
structure Task where
  ID : String
  Date : String
  Title : String
  Comment : String
  Repeat : String
  deriving DecidableEq, Repr

/-! ## The fragment of package `time` used by `checkDate` -/

/-- A `time.Time` value: the civil date in its own location, the time of day
(seconds since local midnight) and the zone offset (seconds east of UTC).
Years are natural numbers: a wall clock never reads a negative year. -/
structure Time where
  year : Nat
  month : Nat
  day : Nat
  clock : Nat
  offset : Int
  deriving DecidableEq, Repr

/-- Go `isLeap`. -/
def isLeap (year : Nat) : Bool :=
  year % 4 == 0 && (year % 100 != 0 || year % 400 == 0)

/-- Go `daysIn`: the number of days of `month` (1..12) in `year`. -/
def daysIn (month year : Nat) : Nat :=
  if month = 2 then (if isLeap year then 29 else 28)
  else if month = 4 ∨ month = 6 ∨ month = 9 ∨ month = 11 then 30
  else 31

/-- A clock reading that `time.Now()` can produce: a real calendar day whose
year has at most four digits. -/
def Time.valid (t : Time) : Prop :=
  t.year ≤ 9999 ∧ 1 ≤ t.month ∧ t.month ≤ 12 ∧ 1 ≤ t.day ∧ t.day ≤ daysIn t.month t.year

instance (t : Time) : Decidable t.valid := by
  unfold Time.valid; infer_instance

/-- The ASCII digit of `n % 10`. -/
def digitChar (n : Nat) : Char := Char.ofNat (48 + n % 10)

/-- Go `appendInt`: `x` in decimal, zero padded to at least `width` digits. -/
def appendInt (x width : Nat) : List Char :=
  if width = 2 ∧ x < 100 then [digitChar (x / 10), digitChar x]
  else if width = 4 ∧ x < 10000 then
    [digitChar (x / 1000), digitChar (x / 100), digitChar (x / 10), digitChar x]
  else
    let ds := Nat.toDigits 10 x
    List.replicate (width - ds.length) '0' ++ ds

/-- The call `t.Format("20060102")`: four-digit year, two-digit month, two-digit day. -/
def Time.Format (t : Time) : String :=
  String.mk (appendInt t.year 4 ++ appendInt t.month 2 ++ appendInt t.day 2)

/-- Go `isDigit` on one character, giving its value. -/
def digitVal (c : Char) : Option Nat :=
  if 48 ≤ c.toNat ∧ c.toNat ≤ 57 then some (c.toNat - 48) else none

/-- The call `time.Parse("20060102", s)`: exactly eight ASCII digits, month in 1..12,
day in 1..daysIn; the result is midnight UTC of that day.  `none` is a parse error. -/
def Parse (s : String) : Option Time :=
  match s.data with
  | [y1, y2, y3, y4, m1, m2, d1, d2] =>
    match digitVal y1, digitVal y2, digitVal y3, digitVal y4,
          digitVal m1, digitVal m2, digitVal d1, digitVal d2 with
    | some a, some b, some c, some d, some e, some f, some g, some h =>
      let year := a * 1000 + b * 100 + c * 10 + d
      let month := e * 10 + f
      let day := g * 10 + h
      if month = 0 ∨ 12 < month then none
      else if day < 1 ∨ daysIn month year < day then none
      else some ⟨year, month, day, 0, 0⟩
    | _, _, _, _, _, _, _, _ => none
  | _ => none

/-! ## The recurrence engine (package `scheduler`, not among the sources) -/

/-- The two functions of package `scheduler` that the handlers call. -/
structure Engine where
  AfterNow : Time → Time → Bool
  NextDate : Time → String → String → Except String String

/-- Every external effect of a handler. -/
inductive Call where
  | timeNow
  | AfterNow (now t : Time)
  | NextDate (now : Time) (date rule : String)
  | AddTask (task : Task)
  | GetTask (id : String)
  | UpdateTask (task : Task)
  | UpdateDate (next id : String)
  | DeleteTask (id : String)
  | Tasks (limit : Nat)
  deriving DecidableEq, Repr

/-- Whether a call goes to the store (package `db`). -/
def Call.isStore : Call → Bool
  | .AddTask _ | .GetTask _ | .UpdateTask _ | .UpdateDate _ _ | .DeleteTask _ | .Tasks _ => true
  | _ => false

/-- Whether a call is `scheduler.NextDate`. -/
def Call.isNextDate : Call → Bool
  | .NextDate _ _ _ => true
  | _ => false

/-! ## `checkDate` (`pkg/api/addtask.go`) -/

/-- What `checkDate` leaves behind: the returned error, the task as mutated
through the pointer, and the effects performed. -/
structure Checked where
  err : Option String
  task : Task
  calls : List Call
  deriving DecidableEq

/-- The function `checkDate` of `pkg/api/addtask.go`. -/
def checkDate (E : Engine) (now : Time) (task : Task) : Checked :=
  let task1 : Task := if task.Date = "" then { task with Date := now.Format } else task
  match Parse task1.Date with
  | none => ⟨some ("invalid date format: " ++ task1.Date), task1, [.timeNow]⟩
  | some t =>
    if E.AfterNow now t then
      if task1.Repeat = "" then
        ⟨none, { task1 with Date := now.Format }, [.timeNow, .AfterNow now t]⟩
      else
        match E.NextDate now task1.Date task1.Repeat with
        | .error _ =>
          ⟨some ("invalid repeat rule: " ++ task1.Repeat), task1,
            [.timeNow, .AfterNow now t, .NextDate now task1.Date task1.Repeat]⟩
        | .ok next =>
          ⟨none, { task1 with Date := next },
            [.timeNow, .AfterNow now t, .NextDate now task1.Date task1.Repeat]⟩
    else
      ⟨none, task1, [.timeNow, .AfterNow now t]⟩

/-- The date `checkDate` goes on with after its first statement (`addtask.go` 50-52):
the submitted date, or `now` formatted as YYYYMMDD when the submitted date is empty. -/
def dateOrToday (now : Time) (task : Task) : String :=
  if task.Date = "" then now.Format else task.Date

/-! ## The store (package `db`) -/

/-- The functions of package `db` that the handlers call, over a store state `σ`.
Only `AddTask` is among the sources (an SQL insert); all of them are taken as
parameters.  An `error` result is `some msg`. -/
structure Db (σ : Type) where
  AddTask : Task → σ → Except String Int × σ
  GetTask : String → σ → Except String Task × σ
  UpdateTask : Task → σ → Option String × σ
  UpdateDate : String → String → σ → Option String × σ
  DeleteTask : String → σ → Option String × σ
  Tasks : Nat → σ → Except String (List Task) × σ

/-! ## The handlers (`pkg/api/addtask.go`, `pkg/api/api.go`) -/

/-- The JSON document a handler writes (or the plain `http.Error` reply). -/
inductive Response where
  | error (msg : String)
  | id (n : Int)
  | task (t : Task)
  | tasks (ts : List Task)
  | empty
  | httpError (msg : String) (code : Nat)
  deriving DecidableEq, Repr

/-- Whether the reply reports a failure. -/
def Response.isError : Response → Bool
  | .error _ => true
  | .httpError _ _ => true
  | _ => false

/-- The outcome of running a handler: the reply, the store afterwards, and the
effects performed, in order. -/
structure Outcome (σ : Type) where
  resp : Response
  store : σ
  calls : List Call

/-- The number of store calls in an effect trace. -/
def storeCalls (cs : List Call) : Nat := (cs.filter Call.isStore).length

/-- The function `addTaskHandle`; `body` is the result of decoding the request body
(`none` when the JSON is malformed). -/
def addTaskHandle {σ : Type} (E : Engine) (D : Db σ) (now : Time)
    (body : Option Task) (s : σ) : Outcome σ :=
  match body with
  | none => ⟨.error "invalid JSON", s, []⟩
  | some task =>
    if task.Title = "" then ⟨.error "title is required", s, []⟩
    else
      let c := checkDate E now task
      match c.err with
      | some msg => ⟨.error msg, s, c.calls⟩
      | none =>
        match D.AddTask c.task s with
        | (.error _, s1) => ⟨.error "database error", s1, c.calls ++ [.AddTask c.task]⟩
        | (.ok id, s1) => ⟨.id id, s1, c.calls ++ [.AddTask c.task]⟩

/-- The function `updateTaskHandle`. -/
def updateTaskHandle {σ : Type} (E : Engine) (D : Db σ) (now : Time)
    (body : Option Task) (s : σ) : Outcome σ :=
  match body with
  | none => ⟨.error "invalid JSON", s, []⟩
  | some task =>
    if task.ID = "" then ⟨.error "Не указан идентификатор", s, []⟩
    else if task.Title = "" then ⟨.error "title is required", s, []⟩
    else
      let c := checkDate E now task
      match c.err with
      | some msg => ⟨.error msg, s, c.calls⟩
      | none =>
        match D.UpdateTask c.task s with
        | (some msg, s1) => ⟨.error msg, s1, c.calls ++ [.UpdateTask c.task]⟩
        | (none, s1) => ⟨.empty, s1, c.calls ++ [.UpdateTask c.task]⟩

/-- The function `getTaskHandle`; `id` is the query parameter. -/
def getTaskHandle {σ : Type} (D : Db σ) (id : String) (s : σ) : Outcome σ :=
  if id = "" then ⟨.error "Не указан идентификатор", s, []⟩
  else
    match D.GetTask id s with
    | (.error _, s1) => ⟨.error "Задача не найдена", s1, [.GetTask id]⟩
    | (.ok task, s1) => ⟨.task task, s1, [.GetTask id]⟩

/-- The function `deleteTaskHandle`. -/
def deleteTaskHandle {σ : Type} (D : Db σ) (id : String) (s : σ) : Outcome σ :=
  if id = "" then ⟨.error "Не указан идентификатор", s, []⟩
  else
    match D.DeleteTask id s with
    | (some _, s1) => ⟨.error "Ошибка при удалении задачи", s1, [.DeleteTask id]⟩
    | (none, s1) => ⟨.empty, s1, [.DeleteTask id]⟩

/-- The function `tasksHandler`; `isGet` says whether the method is GET.  A nil
slice and an empty slice are both the empty list. -/
def tasksHandler {σ : Type} (D : Db σ) (isGet : Bool) (s : σ) : Outcome σ :=
  if isGet = false then ⟨.httpError "unsupported method" 405, s, []⟩
  else
    match D.Tasks 50 s with
    | (.error _, s1) => ⟨.error "failed to fetch tasks", s1, [.Tasks 50]⟩
    | (.ok tasks, s1) => ⟨.tasks tasks, s1, [.Tasks 50]⟩

/-- The function `taskDoneHandle`. -/
def taskDoneHandle {σ : Type} (E : Engine) (D : Db σ) (now : Time)
    (id : String) (s : σ) : Outcome σ :=
  if id = "" then ⟨.error "Не указан идентификатор", s, []⟩
  else
    match D.GetTask id s with
    | (.error _, s1) => ⟨.error "Задача не найдена", s1, [.GetTask id]⟩
    | (.ok task, s1) =>
      if task.Repeat = "" then
        match D.DeleteTask id s1 with
        | (some _, s2) =>
          ⟨.error "Ошибка при удалении задачи", s2, [.GetTask id, .DeleteTask id]⟩
        | (none, s2) => ⟨.empty, s2, [.GetTask id, .DeleteTask id]⟩
      else
        match E.NextDate now task.Date task.Repeat with
        | .error _ =>
          ⟨.error "Ошибка при вычислении следующей даты", s1,
            [.GetTask id, .timeNow, .NextDate now task.Date task.Repeat]⟩
        | .ok nextDate =>
          match D.UpdateDate nextDate id s1 with
          | (some _, s2) =>
            ⟨.error "Ошибка при обновлении даты", s2,
              [.GetTask id, .timeNow, .NextDate now task.Date task.Repeat,
               .UpdateDate nextDate id]⟩
          | (none, s2) =>
            ⟨.empty, s2,
              [.GetTask id, .timeNow, .NextDate now task.Date task.Repeat,
               .UpdateDate nextDate id]⟩

/-- The HTTP methods `taskHandler` tells apart. -/
inductive Method where
  | post | get | put | delete | other
  deriving DecidableEq, Repr

/-- The function `taskHandler`: the dispatch on the request method. -/
def taskHandler {σ : Type} (E : Engine) (D : Db σ) (now : Time) (m : Method)
    (body : Option Task) (id : String) (s : σ) : Outcome σ :=
  match m with
  | .post => addTaskHandle E D now body s
  | .get => getTaskHandle D id s
  | .put => updateTaskHandle E D now body s
  | .delete => deleteTaskHandle D id s
  | .other => ⟨.httpError "unsupported method" 405, s, []⟩

/-! ## The engine contract of the specification -/

/-- Day-granularity strict order on civil dates: `t` is on an earlier calendar day
than `now`. -/
def dayBefore (t now : Time) : Bool :=
  t.year < now.year ∨ (t.year = now.year ∧ (t.month < now.month ∨
    (t.month = now.month ∧ t.day < now.day)))

/-- Modelled from the spec: the contract of the absent `scheduler.AfterNow`
("IsBefore(now, date): true iff date is strictly earlier, at day granularity,
than now's calendar date"). -/
def Engine.IsBeforeContract (E : Engine) : Prop :=
  ∀ now t : Time, E.AfterNow now t = dayBefore t now

/-- Modelled from the spec: the contract of the absent `scheduler.NextDate`
("Next(now, date, repeatRule): returns the next occurrence at or after now"):
a returned string is a calendar date that is not before the day of `now`. -/
def Engine.NextContract (E : Engine) : Prop :=
  ∀ (now : Time) (date rule d : String), E.NextDate now date rule = .ok d →
    ∃ t, Parse d = some t ∧ dayBefore t now = false

/-- A string that is a calendar date in the form YYYYMMDD and is not before the
calendar day of `now`. -/
def dateOk (now : Time) (d : String) : Bool :=
  match Parse d with
  | some t => !dayBefore t now
  | none => false

/-- The day after the civil date of `t`, at midnight UTC. -/
def nextDay (t : Time) : Time :=
  if t.day < daysIn t.month t.year then ⟨t.year, t.month, t.day + 1, 0, 0⟩
  else if t.month < 12 then ⟨t.year, t.month + 1, 1, 0, 0⟩
  else ⟨t.year + 1, 1, 1, 0, 0⟩

/-- Modelled from the spec: package `scheduler` is absent; this sample engine has
the IsBefore predicate of the contract and a Next that knows only the daily rule
"d 1" of the spec's example (the day after the later of `date` and `now`, when that
is a date it can write as YYYYMMDD) and rejects every other rule.  It serves to
evaluate the handlers on concrete inputs. -/
def sampleEngine : Engine where
  AfterNow := fun now t => dayBefore t now
  NextDate := fun now date rule =>
    if rule = "d 1" then
      match Parse date with
      | none => .error "invalid date"
      | some t =>
        let d := (nextDay (if dayBefore t now then now else t)).Format
        if dateOk now d then .ok d else .error "no next date"
    else .error "unsupported rule"

/-! ## The store of the specification -/

/-- Modelled from the spec: the Task Store of section 4.1, whose implementation
(`db.GetTask`, `db.UpdateTask`, `db.UpdateDate`, `db.DeleteTask`, `db.Tasks`) is
absent: the persisted records and the next identifier to assign. -/
structure Store where
  rows : List Task
  nextId : Nat
  deriving DecidableEq, Repr

/-- Modelled from the spec: `Insert(task) -> id`: persists a new record and returns
the identifier the store assigned to it. -/
def Store.Insert (task : Task) (s : Store) : Except String Int × Store :=
  (.ok (s.nextId : Int),
    { rows := s.rows ++ [{ task with ID := toString s.nextId }], nextId := s.nextId + 1 })

/-- Modelled from the spec: `Get(id) -> task`: fails with NotFound if no record
matches. -/
def Store.Get (id : String) (s : Store) : Except String Task :=
  match s.rows.find? (fun t => t.ID = id) with
  | some t => .ok t
  | none => .error "NotFound"

/-- Modelled from the spec: `Update(task)`: replaces all mutable fields of the
record identified by `task.ID`; fails with NotFound if the id does not exist. -/
def Store.Update (task : Task) (s : Store) : Option String × Store :=
  if s.rows.any (fun t => t.ID = task.ID) then
    (none, { s with rows := s.rows.map (fun t => if t.ID = task.ID then task else t) })
  else (some "NotFound", s)

/-- Modelled from the spec: `UpdateDate(id, newDate)`: mutates only `date`; fails
with NotFound if absent. -/
def Store.UpdateDate (newDate id : String) (s : Store) : Option String × Store :=
  if s.rows.any (fun t => t.ID = id) then
    let rows1 := s.rows.map (fun t => if t.ID = id then { t with Date := newDate } else t)
    (none, { s with rows := rows1 })
  else (some "NotFound", s)

/-- Modelled from the spec: `Delete(id)`: removes the record; fails with NotFound
if absent. -/
def Store.Delete (id : String) (s : Store) : Option String × Store :=
  if s.rows.any (fun t => t.ID = id) then
    (none, { s with rows := s.rows.filter (fun t => ¬ t.ID = id) })
  else (some "NotFound", s)

/-- Modelled from the spec: `List(limit)`: at most `limit` records, an empty
sequence when there are none; the order is the store's. -/
def Store.List (limit : Nat) (s : Store) : Except String (List Task) :=
  .ok (s.rows.take limit)

/-- Modelled from the spec: the store of section 4.1 as the `db` package the
handlers call. -/
def specDb : Db Store where
  AddTask := Store.Insert
  GetTask := fun id s => (Store.Get id s, s)
  UpdateTask := Store.Update
  UpdateDate := Store.UpdateDate
  DeleteTask := Store.Delete
  Tasks := fun limit s => (Store.List limit s, s)

/-- The tasks a trace hands to `db.AddTask` or `db.UpdateTask`. -/
def storedTasks : List Call → List Task
  | [] => []
  | .AddTask t :: cs => t :: storedTasks cs
  | .UpdateTask t :: cs => t :: storedTasks cs
  | _ :: cs => storedTasks cs

/-! ## Sample data used to evaluate the definitions -/

/-- A one-off task stored under id 7, due on 10 January 2024. -/
def rentTask : Task := ⟨"7", "20240110", "Pay rent", "", ""⟩

/-- A daily task stored under id 8, due on 1 January 2024. -/
def standupTask : Task := ⟨"8", "20240101", "Standup", "", "d 1"⟩

/-- A stored task whose rule the sample engine rejects. -/
def oddTask : Task := ⟨"9", "20240101", "Odd", "", "zzz"⟩

/-- A store holding the three sample tasks. -/
def sampleStore : Store := ⟨[rentTask, standupTask, oddTask], 10⟩

/-- The moment 15 January 2024, 01:00 at UTC+3. -/
def jan15 : Time := ⟨2024, 1, 15, 3600, 10800⟩

/-! ## Lemmas on parsing and formatting -/

theorem digitVal_digitChar (n : Nat) : digitVal (digitChar n) = some (n % 10) := by
  have h : n % 10 < 10 := Nat.mod_lt _ (by decide)
  unfold digitChar
  generalize n % 10 = k at h
  interval_cases k <;> decide

theorem Parse_Format (now : Time) (h : now.valid) :
    Parse now.Format = some ⟨now.year, now.month, now.day, 0, 0⟩ := by
  obtain ⟨hy, hm1, hm12, hd1, hd⟩ := h
  have hd31 : now.day ≤ 31 := by
    refine le_trans hd ?_
    unfold daysIn; split_ifs <;> decide
  have e4 : appendInt now.year 4 = [digitChar (now.year / 1000), digitChar (now.year / 100),
      digitChar (now.year / 10), digitChar now.year] := by
    unfold appendInt; rw [if_neg (by omega), if_pos ⟨rfl, by omega⟩]
  have em : appendInt now.month 2 = [digitChar (now.month / 10), digitChar now.month] := by
    unfold appendInt; rw [if_pos ⟨rfl, by omega⟩]
  have ed : appendInt now.day 2 = [digitChar (now.day / 10), digitChar now.day] := by
    unfold appendInt; rw [if_pos ⟨rfl, by omega⟩]
  have hyear : now.year / 1000 % 10 * 1000 + now.year / 100 % 10 * 100
      + now.year / 10 % 10 * 10 + now.year % 10 = now.year := by omega
  have hmonth : now.month / 10 % 10 * 10 + now.month % 10 = now.month := by omega
  have hday : now.day / 10 % 10 * 10 + now.day % 10 = now.day := by omega
  unfold Time.Format Parse
  simp only [e4, em, ed, List.cons_append, List.nil_append, digitVal_digitChar,
    hyear, hmonth, hday]
  rw [if_neg (by omega), if_neg (by omega)]

theorem Parse_ne_empty {s : String} {t : Time} (h : Parse s = some t) : s ≠ "" := by
  intro hs
  subst hs
  simp [Parse] at h

theorem dayBefore_irrefl (t : Time) : dayBefore ⟨t.year, t.month, t.day, 0, 0⟩ t = false := by
  simp [dayBefore]

/-! ## The date normaliser -/

/-- C1: for every moment `now` and every task with an empty repeat whose date parses as
YYYYMMDD and is reported by `scheduler.AfterNow` as before `now`, `checkDate` returns no
error and sets the date to `now` formatted as YYYYMMDD, leaving id, title, comment and
repeat as they were. -/
theorem checkDate_lapsed_one_off (E : Engine) (now : Time) (task : Task) (t : Time)
    (hrep : task.Repeat = "") (hparse : Parse task.Date = some t)
    (hbefore : E.AfterNow now t = true) :
    (checkDate E now task).err = none ∧
    (checkDate E now task).task =
      ⟨task.ID, now.Format, task.Title, task.Comment, task.Repeat⟩ := by
  have hne : task.Date ≠ "" := Parse_ne_empty hparse
  simp [checkDate, hne, hparse, hbefore, hrep]

/-- C1 at the stored rent task, due 10 January, normalised on 15 January 2024. -/
theorem checkDate_lapsed_one_off_witness :
    rentTask.Repeat = "" ∧ Parse rentTask.Date = some ⟨2024, 1, 10, 0, 0⟩ ∧
    sampleEngine.AfterNow jan15 ⟨2024, 1, 10, 0, 0⟩ = true ∧
    (checkDate sampleEngine jan15 rentTask).err = none ∧
    (checkDate sampleEngine jan15 rentTask).task = ⟨"7", "20240115", "Pay rent", "", ""⟩ :=
  ⟨by decide, by decide, by decide,
    checkDate_lapsed_one_off sampleEngine jan15 rentTask ⟨2024, 1, 10, 0, 0⟩
      (by decide) (by decide) (by decide)⟩

/-- C2: for every moment `now` and every task with a non-empty repeat whose date parses
as YYYYMMDD and is reported by `scheduler.AfterNow` as before `now`: when
`scheduler.NextDate(now, date, repeat)` returns a date `d`, `checkDate` returns no error
and the date becomes `d`; when it returns an error, `checkDate` returns the
invalid-repeat-rule error and the task is as submitted. -/
theorem checkDate_lapsed_repeating (E : Engine) (now : Time) (task : Task) (t : Time)
    (hrep : task.Repeat ≠ "") (hparse : Parse task.Date = some t)
    (hbefore : E.AfterNow now t = true) :
    (checkDate E now task).err =
      (match E.NextDate now task.Date task.Repeat with
        | .ok _ => none
        | .error _ => some ("invalid repeat rule: " ++ task.Repeat)) ∧
    (checkDate E now task).task =
      (match E.NextDate now task.Date task.Repeat with
        | .ok d => ⟨task.ID, d, task.Title, task.Comment, task.Repeat⟩
        | .error _ => task) := by
  have hne : task.Date ≠ "" := Parse_ne_empty hparse
  simp only [checkDate, hne, if_false, hparse, hbefore, if_true, hrep]
  cases E.NextDate now task.Date task.Repeat <;> simp

/-- C2 at the daily task (Next returns 16 January) and at a task whose rule is rejected. -/
theorem checkDate_lapsed_repeating_witness :
    (standupTask.Repeat ≠ "" ∧ Parse standupTask.Date = some ⟨2024, 1, 1, 0, 0⟩ ∧
      sampleEngine.AfterNow jan15 ⟨2024, 1, 1, 0, 0⟩ = true) ∧
    sampleEngine.NextDate jan15 standupTask.Date standupTask.Repeat = .ok "20240116" ∧
    (checkDate sampleEngine jan15 standupTask).err = none ∧
    (checkDate sampleEngine jan15 standupTask).task =
      ⟨"8", "20240116", "Standup", "", "d 1"⟩ ∧
    sampleEngine.NextDate jan15 oddTask.Date oddTask.Repeat = .error "unsupported rule" ∧
    (checkDate sampleEngine jan15 oddTask).err = some "invalid repeat rule: zzz" ∧
    (checkDate sampleEngine jan15 oddTask).task = oddTask := by
  have h1 := checkDate_lapsed_repeating sampleEngine jan15 standupTask ⟨2024, 1, 1, 0, 0⟩
    (by decide) (by decide) (by decide)
  have h2 := checkDate_lapsed_repeating sampleEngine jan15 oddTask ⟨2024, 1, 1, 0, 0⟩
    (by decide) (by decide) (by decide)
  have e1 : sampleEngine.NextDate jan15 standupTask.Date standupTask.Repeat = .ok "20240116" := by
    rfl
  have e2 : sampleEngine.NextDate jan15 oddTask.Date oddTask.Repeat
      = .error "unsupported rule" := by rfl
  rw [e1] at h1
  rw [e2] at h2
  exact ⟨⟨by decide, by decide, by decide⟩, e1, h1.1, h1.2, e2, h2.1, h2.2⟩

/-- C3: for every moment `now`, every repeat (empty, valid or invalid) and every task
whose date parses as YYYYMMDD and is reported by `scheduler.AfterNow` as not before
`now`, `checkDate` returns no error, leaves the task exactly as submitted, and performs
no call of `scheduler.NextDate`. -/
theorem checkDate_not_lapsed (E : Engine) (now : Time) (task : Task) (t : Time)
    (hparse : Parse task.Date = some t) (hnot : E.AfterNow now t = false) :
    (checkDate E now task).err = none ∧
    (checkDate E now task).task = task ∧
    (checkDate E now task).calls.any Call.isNextDate = false := by
  have hne : task.Date ≠ "" := Parse_ne_empty hparse
  simp [checkDate, hne, hparse, hnot, Call.isNextDate]

/-- C3 at a task dated today whose rule the sample engine rejects. -/
theorem checkDate_not_lapsed_witness :
    Parse "20240115" = some ⟨2024, 1, 15, 0, 0⟩ ∧
    sampleEngine.AfterNow jan15 ⟨2024, 1, 15, 0, 0⟩ = false ∧
    (checkDate sampleEngine jan15 ⟨"", "20240115", "Odd", "", "zzz"⟩).err = none ∧
    (checkDate sampleEngine jan15 ⟨"", "20240115", "Odd", "", "zzz"⟩).task
      = ⟨"", "20240115", "Odd", "", "zzz"⟩ ∧
    (checkDate sampleEngine jan15 ⟨"", "20240115", "Odd", "", "zzz"⟩).calls.any
      Call.isNextDate = false :=
  ⟨by decide, by decide,
    checkDate_not_lapsed sampleEngine jan15 ⟨"", "20240115", "Odd", "", "zzz"⟩
      ⟨2024, 1, 15, 0, 0⟩ (by decide) (by decide)⟩

/-- C4: for every clock reading `now` (a calendar day with a four-digit year), every
repeat string and every task whose date is empty, under the IsBefore contract of the
engine (today is not before now), `checkDate` returns no error, the date becomes `now`
formatted as YYYYMMDD and nothing else changes, whatever the repeat, and
`scheduler.NextDate` is not called. -/
theorem checkDate_empty_date (E : Engine) (now : Time) (task : Task)
    (hE : E.IsBeforeContract) (hnow : now.valid) (hdate : task.Date = "") :
    (checkDate E now task).err = none ∧
    (checkDate E now task).task =
      ⟨task.ID, now.Format, task.Title, task.Comment, task.Repeat⟩ ∧
    (checkDate E now task).calls.any Call.isNextDate = false := by
  have hp := Parse_Format now hnow
  have hb : E.AfterNow now ⟨now.year, now.month, now.day, 0, 0⟩ = false := by
    rw [hE]; exact dayBefore_irrefl now
  simp [checkDate, hdate, hp, hb, Call.isNextDate]

theorem sampleEngine_isBefore : sampleEngine.IsBeforeContract := fun _ _ => rfl

/-- C4 at the example of the specification: an empty date on 15 January 2024. -/
theorem checkDate_empty_date_witness :
    sampleEngine.IsBeforeContract ∧ jan15.valid ∧
    (checkDate sampleEngine jan15 ⟨"", "", "Pay rent", "", ""⟩).err = none ∧
    (checkDate sampleEngine jan15 ⟨"", "", "Pay rent", "", ""⟩).task
      = ⟨"", "20240115", "Pay rent", "", ""⟩ ∧
    (checkDate sampleEngine jan15 ⟨"", "", "Pay rent", "", ""⟩).calls.any
      Call.isNextDate = false :=
  ⟨sampleEngine_isBefore, by decide,
    checkDate_empty_date sampleEngine jan15 ⟨"", "", "Pay rent", "", ""⟩
      sampleEngine_isBefore (by decide) rfl⟩

/-- C5: for every task whose date is non-empty and does not parse as a YYYYMMDD calendar
date, `checkDate` returns the invalid-date error and leaves the task unchanged; the create
and update handlers then answer with an error, leave the store as it was and make no store
call (neither `db.AddTask` nor `db.UpdateTask`). -/
theorem invalid_date_rejected {σ : Type} (E : Engine) (D : Db σ) (now : Time) (task : Task)
    (s : σ) (hne : task.Date ≠ "") (hbad : Parse task.Date = none) :
    (checkDate E now task).err = some ("invalid date format: " ++ task.Date) ∧
    (checkDate E now task).task = task ∧
    (addTaskHandle E D now (some task) s).resp =
      (if task.Title = "" then .error "title is required"
       else .error ("invalid date format: " ++ task.Date)) ∧
    (addTaskHandle E D now (some task) s).store = s ∧
    storeCalls (addTaskHandle E D now (some task) s).calls = 0 ∧
    (updateTaskHandle E D now (some task) s).resp =
      (if task.ID = "" then .error "Не указан идентификатор"
       else if task.Title = "" then .error "title is required"
       else .error ("invalid date format: " ++ task.Date)) ∧
    (updateTaskHandle E D now (some task) s).store = s ∧
    storeCalls (updateTaskHandle E D now (some task) s).calls = 0 := by
  have hc : checkDate E now task
      = ⟨some ("invalid date format: " ++ task.Date), task, [.timeNow]⟩ := by
    simp [checkDate, hne, hbad]
  refine ⟨by rw [hc], by rw [hc], ?_, ?_, ?_, ?_, ?_, ?_⟩
  · by_cases hT : task.Title = "" <;> simp [addTaskHandle, hc, hT]
  · by_cases hT : task.Title = "" <;> simp [addTaskHandle, hc, hT]
  · by_cases hT : task.Title = "" <;> simp [addTaskHandle, hc, hT, storeCalls, Call.isStore]
  · by_cases hI : task.ID = "" <;> by_cases hT : task.Title = "" <;>
      simp [updateTaskHandle, hc, hT, hI]
  · by_cases hI : task.ID = "" <;> by_cases hT : task.Title = "" <;>
      simp [updateTaskHandle, hc, hT, hI]
  · by_cases hI : task.ID = "" <;> by_cases hT : task.Title = "" <;>
      simp [updateTaskHandle, hc, hT, hI, storeCalls, Call.isStore]

/-- C5 at the date 30 February 2024. -/
theorem invalid_date_rejected_witness :
    ("20240230" ≠ "" ∧ Parse "20240230" = none) ∧
    (checkDate sampleEngine jan15 ⟨"7", "20240230", "Pay rent", "", ""⟩).err
      = some "invalid date format: 20240230" ∧
    (addTaskHandle sampleEngine specDb jan15 (some ⟨"7", "20240230", "Pay rent", "", ""⟩)
      sampleStore).resp = .error "invalid date format: 20240230" ∧
    storeCalls (addTaskHandle sampleEngine specDb jan15
      (some ⟨"7", "20240230", "Pay rent", "", ""⟩) sampleStore).calls = 0 ∧
    (updateTaskHandle sampleEngine specDb jan15 (some ⟨"7", "20240230", "Pay rent", "", ""⟩)
      sampleStore).resp = .error "invalid date format: 20240230" ∧
    storeCalls (updateTaskHandle sampleEngine specDb jan15
      (some ⟨"7", "20240230", "Pay rent", "", ""⟩) sampleStore).calls = 0 := by
  have h := invalid_date_rejected sampleEngine specDb jan15
    ⟨"7", "20240230", "Pay rent", "", ""⟩ sampleStore (by decide) (by decide)
  exact ⟨⟨by decide, by decide⟩, h.1, h.2.2.1, h.2.2.2.2.1, h.2.2.2.2.2.1, h.2.2.2.2.2.2.2⟩

/-! ## Completion, on the store of the specification -/

theorem find_filter_ne (id : String) (rows : List Task) :
    (rows.filter (fun t => ¬ t.ID = id)).find? (fun t => t.ID = id) = none := by
  induction rows with
  | nil => rfl
  | cons r rs ih =>
    by_cases h : r.ID = id
    · simp [List.filter_cons, h]
    · simp [List.filter_cons, h, List.find?_cons]

theorem find_map_date (id d : String) (rows : List Task) :
    (rows.map (fun t => if t.ID = id then { t with Date := d } else t)).find?
        (fun t => t.ID = id)
      = (rows.find? (fun t => t.ID = id)).map (fun t => { t with Date := d }) := by
  induction rows with
  | nil => rfl
  | cons r rs ih =>
    by_cases h : r.ID = id
    · simp [List.find?_cons, h]
    · simp [List.find?_cons, h]
      simpa using ih

theorem Get_ok_any {id : String} {s : Store} {task : Task} (h : Store.Get id s = .ok task) :
    s.rows.find? (fun t => t.ID = id) = some task ∧
    s.rows.any (fun t => t.ID = id) = true := by
  unfold Store.Get at h
  cases hf : s.rows.find? (fun t => t.ID = id) with
  | none => rw [hf] at h; cases h
  | some t =>
    rw [hf] at h
    injection h with h
    subst h
    refine ⟨rfl, ?_⟩
    have hm := List.mem_of_find?_eq_some hf
    have hp := List.find?_some hf
    exact List.any_eq_true.mpr ⟨t, hm, hp⟩

/-- C6: for every non-empty id under which the store holds a task, `taskDoneHandle` acts
by cases on the stored repeat.  Empty repeat: the task is deleted and a later Read of the
id (`getTaskHandle`) fails with the not-found error.  Non-empty repeat and
`scheduler.NextDate(now, date, repeat)` returns `d`: a date-only update to `d` is made, and
a later Read of the id succeeds with the same id, title, comment and repeat and with date
`d`.  Non-empty repeat and NextDate fails: the store is not modified. -/
theorem taskDone_cases (E : Engine) (now : Time) (id : String) (s : Store) (task : Task)
    (hid : id ≠ "") (hget : Store.Get id s = .ok task) :
    if task.Repeat = "" then
      (taskDoneHandle E specDb now id s).resp = .empty ∧
      (taskDoneHandle E specDb now id s).calls = [.GetTask id, .DeleteTask id] ∧
      Store.Get id (taskDoneHandle E specDb now id s).store = .error "NotFound" ∧
      (getTaskHandle specDb id (taskDoneHandle E specDb now id s).store).resp
        = .error "Задача не найдена"
    else
      match E.NextDate now task.Date task.Repeat with
      | .ok d =>
        (taskDoneHandle E specDb now id s).resp = .empty ∧
        (taskDoneHandle E specDb now id s).calls =
          [.GetTask id, .timeNow, .NextDate now task.Date task.Repeat, .UpdateDate d id] ∧
        (getTaskHandle specDb id (taskDoneHandle E specDb now id s).store).resp =
          .task ⟨task.ID, d, task.Title, task.Comment, task.Repeat⟩
      | .error _ =>
        (taskDoneHandle E specDb now id s).resp.isError = true ∧
        (taskDoneHandle E specDb now id s).store = s := by
  obtain ⟨hfind, hany⟩ := Get_ok_any hget
  by_cases hrep : task.Repeat = ""
  · rw [if_pos hrep]
    have ho : taskDoneHandle E specDb now id s
        = ⟨.empty, ⟨s.rows.filter (fun t => ¬ t.ID = id), s.nextId⟩,
            [.GetTask id, .DeleteTask id]⟩ := by
      simp only [taskDoneHandle, specDb, hid, hget, hrep, Store.Delete, hany, ↓reduceIte]
    rw [ho]
    have hg : Store.Get id ⟨s.rows.filter (fun t => ¬ t.ID = id), s.nextId⟩
        = .error "NotFound" := by
      simp only [Store.Get, find_filter_ne]
    refine ⟨rfl, rfl, hg, ?_⟩
    simp only [getTaskHandle, specDb, hid, hg, ↓reduceIte]
  · rw [if_neg hrep]
    cases hn : E.NextDate now task.Date task.Repeat with
    | error e =>
      have ho : taskDoneHandle E specDb now id s
          = ⟨.error "Ошибка при вычислении следующей даты", s,
              [.GetTask id, .timeNow, .NextDate now task.Date task.Repeat]⟩ := by
        simp only [taskDoneHandle, specDb, hid, hget, hrep, hn, ↓reduceIte]
      rw [ho]
      exact ⟨rfl, rfl⟩
    | ok d =>
      have ho : taskDoneHandle E specDb now id s
          = ⟨.empty,
              ⟨s.rows.map (fun t => if t.ID = id then { t with Date := d } else t), s.nextId⟩,
              [.GetTask id, .timeNow, .NextDate now task.Date task.Repeat,
                .UpdateDate d id]⟩ := by
        simp only [taskDoneHandle, specDb, hid, hget, hrep, hn, Store.UpdateDate, hany,
          ↓reduceIte]
      rw [ho]
      have hg : Store.Get id
          ⟨s.rows.map (fun t => if t.ID = id then { t with Date := d } else t), s.nextId⟩
          = .ok ⟨task.ID, d, task.Title, task.Comment, task.Repeat⟩ := by
        simp only [Store.Get, find_map_date, hfind, Option.map_some']
      refine ⟨rfl, rfl, ?_⟩
      simp only [getTaskHandle, specDb, hid, hg, ↓reduceIte]

/-- C6 at the example of the specification: the one-off task of 10 January completed on
15 January 2024 is deleted. -/
theorem taskDone_cases_witness :
    ("7" ≠ "" ∧ Store.Get "7" sampleStore = .ok rentTask) ∧
    rentTask.Date = "20240110" ∧ rentTask.Repeat = "" ∧
    (taskDoneHandle sampleEngine specDb jan15 "7" sampleStore).resp = .empty ∧
    (taskDoneHandle sampleEngine specDb jan15 "7" sampleStore).calls
      = [.GetTask "7", .DeleteTask "7"] ∧
    Store.Get "7" (taskDoneHandle sampleEngine specDb jan15 "7" sampleStore).store
      = .error "NotFound" ∧
    (getTaskHandle specDb "7"
      (taskDoneHandle sampleEngine specDb jan15 "7" sampleStore).store).resp
      = .error "Задача не найдена" := by
  have h := taskDone_cases sampleEngine jan15 "7" sampleStore rentTask (by decide) rfl
  rw [if_pos (by decide)] at h
  exact ⟨⟨by decide, rfl⟩, rfl, rfl, h⟩

/-! ## What reaches the store -/

theorem checkDate_stored (E : Engine) (now : Time) (task : Task) :
    storedTasks (checkDate E now task).calls = [] ∧
    storeCalls (checkDate E now task).calls = 0 := by
  unfold checkDate
  dsimp only
  generalize (if task.Date = "" then
    ({ ID := task.ID, Date := now.Format, Title := task.Title, Comment := task.Comment,
       Repeat := task.Repeat } : Task) else task) = task1
  split
  · exact ⟨rfl, rfl⟩
  · split_ifs
    · exact ⟨rfl, rfl⟩
    · split <;> exact ⟨rfl, rfl⟩
    · exact ⟨rfl, rfl⟩

theorem checkDate_title (E : Engine) (now : Time) (task : Task) :
    (checkDate E now task).task.Title = task.Title := by
  unfold checkDate
  dsimp only
  have h1 : (if task.Date = "" then
    ({ ID := task.ID, Date := now.Format, Title := task.Title, Comment := task.Comment,
       Repeat := task.Repeat } : Task) else task).Title = task.Title := by
    split_ifs <;> rfl
  generalize (if task.Date = "" then
    ({ ID := task.ID, Date := now.Format, Title := task.Title, Comment := task.Comment,
       Repeat := task.Repeat } : Task) else task) = task1 at h1 ⊢
  split
  · exact h1
  · split_ifs
    · exact h1
    · split <;> exact h1
    · exact h1

theorem storedTasks_append (xs ys : List Call) :
    storedTasks (xs ++ ys) = storedTasks xs ++ storedTasks ys := by
  induction xs with
  | nil => rfl
  | cons c cs ih => cases c <;> simp [storedTasks, ih]

theorem storeCalls_append (xs ys : List Call) :
    storeCalls (xs ++ ys) = storeCalls xs + storeCalls ys := by
  simp [storeCalls]

theorem addTaskHandle_stored {σ : Type} (E : Engine) (D : Db σ) (now : Time)
    (body : Option Task) (s : σ) (t : Task)
    (h : t ∈ storedTasks (addTaskHandle E D now body s).calls) :
    ∃ task, body = some task ∧ task.Title ≠ "" ∧ (checkDate E now task).err = none ∧
      t = (checkDate E now task).task := by
  cases body with
  | none => simp [addTaskHandle, storedTasks] at h
  | some task =>
    by_cases hT : task.Title = ""
    · simp [addTaskHandle, hT, storedTasks] at h
    · cases he : (checkDate E now task).err with
      | some msg =>
        simp [addTaskHandle, hT, he, (checkDate_stored E now task).1] at h
      | none =>
        refine ⟨task, rfl, hT, he, ?_⟩
        simp only [addTaskHandle, hT, he, ↓reduceIte] at h
        rcases hd : D.AddTask (checkDate E now task).task s with ⟨r, s1⟩
        rw [hd] at h
        cases r <;>
          simpa [storedTasks_append, (checkDate_stored E now task).1, storedTasks] using h

theorem updateTaskHandle_stored {σ : Type} (E : Engine) (D : Db σ) (now : Time)
    (body : Option Task) (s : σ) (t : Task)
    (h : t ∈ storedTasks (updateTaskHandle E D now body s).calls) :
    ∃ task, body = some task ∧ task.ID ≠ "" ∧ task.Title ≠ "" ∧
      (checkDate E now task).err = none ∧ t = (checkDate E now task).task := by
  cases body with
  | none => simp [updateTaskHandle, storedTasks] at h
  | some task =>
    by_cases hI : task.ID = ""
    · simp [updateTaskHandle, hI, storedTasks] at h
    by_cases hT : task.Title = ""
    · simp [updateTaskHandle, hI, hT, storedTasks] at h
    · cases he : (checkDate E now task).err with
      | some msg =>
        simp [updateTaskHandle, hI, hT, he, (checkDate_stored E now task).1] at h
      | none =>
        refine ⟨task, rfl, hI, hT, he, ?_⟩
        simp only [updateTaskHandle, hI, hT, he, ↓reduceIte] at h
        rcases hd : D.UpdateTask (checkDate E now task).task s with ⟨r, s1⟩
        rw [hd] at h
        cases r <;>
          simpa [storedTasks_append, (checkDate_stored E now task).1, storedTasks] using h

theorem checkDate_dateOk (E : Engine) (now : Time) (task : Task)
    (hA : E.IsBeforeContract) (hN : E.NextContract) (hnow : now.valid)
    (hok : (checkDate E now task).err = none) :
    dateOk now (checkDate E now task).task.Date = true := by
  have htoday : dateOk now now.Format = true := by
    simp [dateOk, Parse_Format now hnow, dayBefore_irrefl]
  unfold checkDate at hok ⊢
  dsimp only at hok ⊢
  generalize (if task.Date = "" then
    ({ ID := task.ID, Date := now.Format, Title := task.Title, Comment := task.Comment,
       Repeat := task.Repeat } : Task) else task) = task1 at hok ⊢
  cases hp : Parse task1.Date with
  | none => simp [hp] at hok
  | some t =>
    simp only [hp] at hok ⊢
    by_cases hb : E.AfterNow now t = true
    · by_cases hr : task1.Repeat = ""
      · simpa [hb, hr] using htoday
      · cases hn : E.NextDate now task1.Date task1.Repeat with
        | error e => simp [hb, hr, hn] at hok
        | ok d =>
          obtain ⟨t2, hp2, hd2⟩ := hN now task1.Date task1.Repeat d hn
          simp [hb, hr, hn, dateOk, hp2, hd2]
    · have hd : dayBefore t now = false := by
        rw [← hA now t]; simpa using hb
      simp [hb, dateOk, hp, hd]

theorem dateOk_iff {now : Time} {d : String} (h : dateOk now d = true) :
    ∃ t, Parse d = some t ∧ dayBefore t now = false := by
  unfold dateOk at h
  cases hp : Parse d with
  | none => simp [hp] at h
  | some t => exact ⟨t, rfl, by simpa [hp] using h⟩

theorem sampleEngine_next : sampleEngine.NextContract := by
  intro now date rule d h
  simp only [sampleEngine] at h
  by_cases hr : rule = "d 1"
  · rw [if_pos hr] at h
    cases hp : Parse date with
    | none => simp [hp] at h
    | some t =>
      simp only [hp] at h
      by_cases hk : dateOk now (nextDay (if dayBefore t now = true then now else t)).Format
          = true
      · rw [if_pos hk] at h
        injection h with h
        subst h
        exact dateOk_iff hk
      · rw [if_neg hk] at h
        cases h
  · rw [if_neg hr] at h
    cases h

/-! ## Invariants of create and update -/

/-- C7 as stated fails: the sample engine rejects the rule "zzz", yet a candidate with
that rule and a date after today, or an empty date, or today's date, is handed to
`db.AddTask` or `db.UpdateTask` and is then found in the store. -/
theorem invalid_repeat_persisted :
    sampleEngine.NextDate jan15 "20240120" "zzz" = .error "unsupported rule" ∧
    sampleEngine.NextDate jan15 "20240115" "zzz" = .error "unsupported rule" ∧
    storedTasks (addTaskHandle sampleEngine specDb jan15
      (some ⟨"", "20240120", "Odd", "", "zzz"⟩) sampleStore).calls
      = [⟨"", "20240120", "Odd", "", "zzz"⟩] ∧
    (getTaskHandle specDb "10" (addTaskHandle sampleEngine specDb jan15
      (some ⟨"", "20240120", "Odd", "", "zzz"⟩) sampleStore).store).resp
      = .task ⟨"10", "20240120", "Odd", "", "zzz"⟩ ∧
    storedTasks (addTaskHandle sampleEngine specDb jan15
      (some ⟨"", "", "Odd", "", "zzz"⟩) sampleStore).calls
      = [⟨"", "20240115", "Odd", "", "zzz"⟩] ∧
    storedTasks (updateTaskHandle sampleEngine specDb jan15
      (some ⟨"7", "20240115", "Pay rent", "", "zzz"⟩) sampleStore).calls
      = [⟨"7", "20240115", "Pay rent", "", "zzz"⟩] :=
  ⟨rfl, rfl, by decide, by decide, by decide, by decide⟩

theorem checkDate_eq (E : Engine) (now : Time) (task : Task) (t : Time)
    (hparse : Parse (dateOrToday now task) = some t) :
    checkDate E now task =
      if E.AfterNow now t = true then
        if task.Repeat = "" then
          ⟨none, ⟨task.ID, now.Format, task.Title, task.Comment, task.Repeat⟩,
            [.timeNow, .AfterNow now t]⟩
        else
          match E.NextDate now (dateOrToday now task) task.Repeat with
          | .error _ =>
            ⟨some ("invalid repeat rule: " ++ task.Repeat),
              ⟨task.ID, dateOrToday now task, task.Title, task.Comment, task.Repeat⟩,
              [.timeNow, .AfterNow now t, .NextDate now (dateOrToday now task) task.Repeat]⟩
          | .ok d =>
            ⟨none, ⟨task.ID, d, task.Title, task.Comment, task.Repeat⟩,
              [.timeNow, .AfterNow now t, .NextDate now (dateOrToday now task) task.Repeat]⟩
      else
        ⟨none, ⟨task.ID, dateOrToday now task, task.Title, task.Comment, task.Repeat⟩,
          [.timeNow, .AfterNow now t]⟩ := by
  unfold dateOrToday at hparse ⊢
  unfold checkDate
  by_cases hd : task.Date = ""
  · simp only [hd, ↓reduceIte] at hparse ⊢
    simp only [hparse]
  · simp only [hd, ↓reduceIte] at hparse ⊢
    simp only [hparse]

theorem addTaskHandle_of_err {σ : Type} (E : Engine) (D : Db σ) (now : Time) (task : Task)
    (s : σ) (msg : String) (hT : task.Title ≠ "") (he : (checkDate E now task).err = some msg) :
    addTaskHandle E D now (some task) s = ⟨.error msg, s, (checkDate E now task).calls⟩ := by
  simp only [addTaskHandle, hT, he, ↓reduceIte]

theorem addTaskHandle_of_ok {σ : Type} (E : Engine) (D : Db σ) (now : Time) (task : Task)
    (s : σ) (hT : task.Title ≠ "") (he : (checkDate E now task).err = none) :
    (addTaskHandle E D now (some task) s).calls
      = (checkDate E now task).calls ++ [.AddTask (checkDate E now task).task] ∧
    (addTaskHandle E D now (some task) s).store
      = (D.AddTask (checkDate E now task).task s).2 ∧
    (addTaskHandle E D now (some task) s).resp
      = (match (D.AddTask (checkDate E now task).task s).1 with
          | .ok id => .id id
          | .error _ => .error "database error") := by
  simp only [addTaskHandle, hT, he, ↓reduceIte]
  rcases hd : D.AddTask (checkDate E now task).task s with ⟨r, s1⟩
  cases r <;> exact ⟨rfl, rfl, rfl⟩

theorem updateTaskHandle_of_err {σ : Type} (E : Engine) (D : Db σ) (now : Time) (task : Task)
    (s : σ) (msg : String) (hI : task.ID ≠ "") (hT : task.Title ≠ "")
    (he : (checkDate E now task).err = some msg) :
    updateTaskHandle E D now (some task) s = ⟨.error msg, s, (checkDate E now task).calls⟩ := by
  simp only [updateTaskHandle, hI, hT, he, ↓reduceIte]

theorem updateTaskHandle_of_ok {σ : Type} (E : Engine) (D : Db σ) (now : Time) (task : Task)
    (s : σ) (hI : task.ID ≠ "") (hT : task.Title ≠ "")
    (he : (checkDate E now task).err = none) :
    (updateTaskHandle E D now (some task) s).calls
      = (checkDate E now task).calls ++ [.UpdateTask (checkDate E now task).task] ∧
    (updateTaskHandle E D now (some task) s).store
      = (D.UpdateTask (checkDate E now task).task s).2 ∧
    (updateTaskHandle E D now (some task) s).resp
      = (match (D.UpdateTask (checkDate E now task).task s).1 with
          | some msg => .error msg
          | none => .empty) := by
  simp only [updateTaskHandle, hI, hT, he, ↓reduceIte]
  rcases hd : D.UpdateTask (checkDate E now task).task s with ⟨r, s1⟩
  cases r <;> exact ⟨rfl, rfl, rfl⟩

theorem updateTaskHandle_no_id {σ : Type} (E : Engine) (D : Db σ) (now : Time) (task : Task)
    (s : σ) (hI : task.ID = "") :
    updateTaskHandle E D now (some task) s = ⟨.error "Не указан идентификатор", s, []⟩ := by
  simp only [updateTaskHandle, hI, ↓reduceIte]

theorem addTaskHandle_handover {σ : Type} (E : Engine) (D : Db σ) (now : Time)
    (body : Option Task) (s : σ) :
    ((addTaskHandle E D now body s).store = s ∧
      storeCalls (addTaskHandle E D now body s).calls = 0 ∧
      storedTasks (addTaskHandle E D now body s).calls = []) ∨
    ∃ task, body = some task ∧ task.Title ≠ "" ∧ (checkDate E now task).err = none ∧
      storedTasks (addTaskHandle E D now body s).calls = [(checkDate E now task).task] ∧
      (addTaskHandle E D now body s).store = (D.AddTask (checkDate E now task).task s).2 ∧
      (addTaskHandle E D now body s).resp
        = (match (D.AddTask (checkDate E now task).task s).1 with
            | .ok id => .id id
            | .error _ => .error "database error") := by
  cases body with
  | none => left; exact ⟨rfl, rfl, rfl⟩
  | some task =>
    by_cases hT : task.Title = ""
    · left
      simp [addTaskHandle, hT, storeCalls, storedTasks]
    · cases he : (checkDate E now task).err with
      | some msg =>
        left
        rw [addTaskHandle_of_err E D now task s msg hT he]
        exact ⟨rfl, (checkDate_stored E now task).2, (checkDate_stored E now task).1⟩
      | none =>
        right
        obtain ⟨h1, h2, h3⟩ := addTaskHandle_of_ok E D now task s hT he
        refine ⟨task, rfl, hT, he, ?_, h2, h3⟩
        rw [h1, storedTasks_append, (checkDate_stored E now task).1]
        rfl

theorem updateTaskHandle_handover {σ : Type} (E : Engine) (D : Db σ) (now : Time)
    (body : Option Task) (s : σ) :
    ((updateTaskHandle E D now body s).store = s ∧
      storeCalls (updateTaskHandle E D now body s).calls = 0 ∧
      storedTasks (updateTaskHandle E D now body s).calls = []) ∨
    ∃ task, body = some task ∧ task.ID ≠ "" ∧ task.Title ≠ "" ∧
      (checkDate E now task).err = none ∧
      storedTasks (updateTaskHandle E D now body s).calls = [(checkDate E now task).task] ∧
      (updateTaskHandle E D now body s).store
        = (D.UpdateTask (checkDate E now task).task s).2 ∧
      (updateTaskHandle E D now body s).resp
        = (match (D.UpdateTask (checkDate E now task).task s).1 with
            | some msg => .error msg
            | none => .empty) := by
  cases body with
  | none => left; exact ⟨rfl, rfl, rfl⟩
  | some task =>
    by_cases hI : task.ID = ""
    · left
      rw [updateTaskHandle_no_id E D now task s hI]
      exact ⟨rfl, rfl, rfl⟩
    by_cases hT : task.Title = ""
    · left
      simp [updateTaskHandle, hI, hT, storeCalls, storedTasks]
    · cases he : (checkDate E now task).err with
      | some msg =>
        left
        rw [updateTaskHandle_of_err E D now task s msg hI hT he]
        exact ⟨rfl, (checkDate_stored E now task).2, (checkDate_stored E now task).1⟩
      | none =>
        right
        obtain ⟨h1, h2, h3⟩ := updateTaskHandle_of_ok E D now task s hI hT he
        refine ⟨task, rfl, hI, hT, he, ?_, h2, h3⟩
        rw [h1, storedTasks_append, (checkDate_stored E now task).1]
        rfl

/-- C7 amended: for every candidate that passes the title check, has a non-empty repeat and
whose date (today's date when it was submitted empty) parses as YYYYMMDD.
If `scheduler.AfterNow` reports the date as before `now` and `scheduler.NextDate` rejects
the repeat, create answers with the invalid-repeat-rule error and so does update (the id
error when the id is empty); the store is as it was and no store call is made.
If AfterNow reports it as before `now` and NextDate returns `d`, the candidate with date `d`
is what `db.AddTask` receives (and `db.UpdateTask`, when the id is present).
If AfterNow reports the date as not before `now`, the candidate is handed to `db.AddTask`
(and to `db.UpdateTask`, when the id is present) with that date and with its repeat
unexamined: NextDate is not called, whatever the repeat. -/
theorem repeat_examined_only_when_lapsed {σ : Type} (E : Engine) (D : Db σ) (now : Time)
    (task : Task) (s : σ) (t : Time)
    (hrep : task.Repeat ≠ "") (htitle : task.Title ≠ "")
    (hparse : Parse (dateOrToday now task) = some t) :
    if E.AfterNow now t = true then
      match E.NextDate now (dateOrToday now task) task.Repeat with
      | .error _ =>
        (addTaskHandle E D now (some task) s).resp
          = .error ("invalid repeat rule: " ++ task.Repeat) ∧
        (addTaskHandle E D now (some task) s).store = s ∧
        storeCalls (addTaskHandle E D now (some task) s).calls = 0 ∧
        (updateTaskHandle E D now (some task) s).resp
          = (if task.ID = "" then .error "Не указан идентификатор"
             else .error ("invalid repeat rule: " ++ task.Repeat)) ∧
        (updateTaskHandle E D now (some task) s).store = s ∧
        storeCalls (updateTaskHandle E D now (some task) s).calls = 0
      | .ok d =>
        storedTasks (addTaskHandle E D now (some task) s).calls
          = [⟨task.ID, d, task.Title, task.Comment, task.Repeat⟩] ∧
        (addTaskHandle E D now (some task) s).store
          = (D.AddTask ⟨task.ID, d, task.Title, task.Comment, task.Repeat⟩ s).2 ∧
        storedTasks (updateTaskHandle E D now (some task) s).calls
          = (if task.ID = "" then []
             else [⟨task.ID, d, task.Title, task.Comment, task.Repeat⟩]) ∧
        (updateTaskHandle E D now (some task) s).store
          = (if task.ID = "" then s
             else (D.UpdateTask ⟨task.ID, d, task.Title, task.Comment, task.Repeat⟩ s).2)
    else
      storedTasks (addTaskHandle E D now (some task) s).calls
        = [⟨task.ID, dateOrToday now task, task.Title, task.Comment, task.Repeat⟩] ∧
      (addTaskHandle E D now (some task) s).calls.any Call.isNextDate = false ∧
      (addTaskHandle E D now (some task) s).store
        = (D.AddTask
            ⟨task.ID, dateOrToday now task, task.Title, task.Comment, task.Repeat⟩ s).2 ∧
      storedTasks (updateTaskHandle E D now (some task) s).calls
        = (if task.ID = "" then []
           else [⟨task.ID, dateOrToday now task, task.Title, task.Comment, task.Repeat⟩]) ∧
      (updateTaskHandle E D now (some task) s).calls.any Call.isNextDate = false ∧
      (updateTaskHandle E D now (some task) s).store
        = (if task.ID = "" then s
           else (D.UpdateTask
            ⟨task.ID, dateOrToday now task, task.Title, task.Comment, task.Repeat⟩ s).2) := by
  have hc := checkDate_eq E now task t hparse
  by_cases hb : E.AfterNow now t = true
  · rw [if_pos hb]
    rw [if_pos hb, if_neg hrep] at hc
    cases hn : E.NextDate now (dateOrToday now task) task.Repeat with
    | error e =>
      simp only [hn] at hc
      have he : (checkDate E now task).err
          = some ("invalid repeat rule: " ++ task.Repeat) := by rw [hc]
      have hs := (checkDate_stored E now task).2
      dsimp only
      rw [addTaskHandle_of_err E D now task s _ htitle he]
      refine ⟨rfl, rfl, hs, ?_⟩
      by_cases hI : task.ID = ""
      · rw [updateTaskHandle_no_id E D now task s hI, if_pos hI]
        exact ⟨rfl, rfl, rfl⟩
      · rw [updateTaskHandle_of_err E D now task s _ hI htitle he, if_neg hI]
        exact ⟨rfl, rfl, hs⟩
    | ok d =>
      simp only [hn] at hc
      have he : (checkDate E now task).err = none := by rw [hc]
      have ht : (checkDate E now task).task
          = ⟨task.ID, d, task.Title, task.Comment, task.Repeat⟩ := by rw [hc]
      have hs := (checkDate_stored E now task).1
      dsimp only
      obtain ⟨a1, a2, _⟩ := addTaskHandle_of_ok E D now task s htitle he
      refine ⟨?_, ?_, ?_, ?_⟩
      · rw [a1, storedTasks_append, hs, ht]; rfl
      · rw [a2, ht]
      · by_cases hI : task.ID = ""
        · rw [updateTaskHandle_no_id E D now task s hI, if_pos hI]; rfl
        · obtain ⟨u1, _, _⟩ := updateTaskHandle_of_ok E D now task s hI htitle he
          rw [u1, storedTasks_append, hs, ht, if_neg hI]; rfl
      · by_cases hI : task.ID = ""
        · rw [updateTaskHandle_no_id E D now task s hI, if_pos hI]
        · obtain ⟨_, u2, _⟩ := updateTaskHandle_of_ok E D now task s hI htitle he
          rw [u2, ht, if_neg hI]
  · rw [if_neg hb]
    rw [if_neg hb] at hc
    have he : (checkDate E now task).err = none := by rw [hc]
    have ht : (checkDate E now task).task
        = ⟨task.ID, dateOrToday now task, task.Title, task.Comment, task.Repeat⟩ := by rw [hc]
    have hk : (checkDate E now task).calls = [.timeNow, .AfterNow now t] := by rw [hc]
    have hs := (checkDate_stored E now task).1
    obtain ⟨a1, a2, _⟩ := addTaskHandle_of_ok E D now task s htitle he
    refine ⟨?_, ?_, ?_, ?_, ?_, ?_⟩
    · rw [a1, storedTasks_append, hs, ht]; rfl
    · rw [a1, hk]; rfl
    · rw [a2, ht]
    · by_cases hI : task.ID = ""
      · rw [updateTaskHandle_no_id E D now task s hI, if_pos hI]; rfl
      · obtain ⟨u1, _, _⟩ := updateTaskHandle_of_ok E D now task s hI htitle he
        rw [u1, storedTasks_append, hs, ht, if_neg hI]; rfl
    · by_cases hI : task.ID = ""
      · rw [updateTaskHandle_no_id E D now task s hI]; rfl
      · obtain ⟨u1, _, _⟩ := updateTaskHandle_of_ok E D now task s hI htitle he
        rw [u1, hk]; rfl
    · by_cases hI : task.ID = ""
      · rw [updateTaskHandle_no_id E D now task s hI, if_pos hI]
      · obtain ⟨_, u2, _⟩ := updateTaskHandle_of_ok E D now task s hI htitle he
        rw [u2, ht, if_neg hI]

/-- C7 amended, at a lapsed task whose rule the sample engine rejects (nothing reaches the
store) and at the same rule with a date after today (handed to the store, NextDate not
called). -/
theorem repeat_examined_only_when_lapsed_witness :
    (oddTask.Repeat ≠ "" ∧ oddTask.Title ≠ "" ∧
      Parse (dateOrToday jan15 oddTask) = some ⟨2024, 1, 1, 0, 0⟩) ∧
    sampleEngine.AfterNow jan15 ⟨2024, 1, 1, 0, 0⟩ = true ∧
    sampleEngine.NextDate jan15 (dateOrToday jan15 oddTask) oddTask.Repeat
      = .error "unsupported rule" ∧
    (addTaskHandle sampleEngine specDb jan15 (some oddTask) sampleStore).resp
      = .error "invalid repeat rule: zzz" ∧
    storeCalls (addTaskHandle sampleEngine specDb jan15 (some oddTask) sampleStore).calls
      = 0 ∧
    (updateTaskHandle sampleEngine specDb jan15 (some oddTask) sampleStore).resp
      = .error "invalid repeat rule: zzz" ∧
    storeCalls (updateTaskHandle sampleEngine specDb jan15 (some oddTask) sampleStore).calls
      = 0 ∧
    sampleEngine.AfterNow jan15 ⟨2024, 1, 20, 0, 0⟩ = false ∧
    storedTasks (addTaskHandle sampleEngine specDb jan15
      (some ⟨"9", "20240120", "Odd", "", "zzz"⟩) sampleStore).calls
      = [⟨"9", "20240120", "Odd", "", "zzz"⟩] ∧
    (addTaskHandle sampleEngine specDb jan15
      (some ⟨"9", "20240120", "Odd", "", "zzz"⟩) sampleStore).calls.any Call.isNextDate
      = false ∧
    storedTasks (updateTaskHandle sampleEngine specDb jan15
      (some ⟨"9", "20240120", "Odd", "", "zzz"⟩) sampleStore).calls
      = [⟨"9", "20240120", "Odd", "", "zzz"⟩] := by
  have h1 := repeat_examined_only_when_lapsed sampleEngine specDb jan15 oddTask sampleStore
    ⟨2024, 1, 1, 0, 0⟩ (by decide) (by decide) (by decide)
  have e1 : sampleEngine.NextDate jan15 (dateOrToday jan15 oddTask) oddTask.Repeat
      = .error "unsupported rule" := rfl
  rw [if_pos (by decide)] at h1
  simp only [e1] at h1
  have h2 := repeat_examined_only_when_lapsed sampleEngine specDb jan15
    ⟨"9", "20240120", "Odd", "", "zzz"⟩ sampleStore ⟨2024, 1, 20, 0, 0⟩
    (by decide) (by decide) (by decide)
  rw [if_neg (by decide)] at h2
  exact ⟨⟨by decide, by decide, by decide⟩, by decide, e1, h1.1, h1.2.2.1, h1.2.2.2.1,
    h1.2.2.2.2.2, by decide, h2.1, h2.2.1, h2.2.2.2.1⟩

/-- C8: under the engine contract (AfterNow is the strict comparison of calendar days,
NextDate returns a date at or after now) and for every clock reading `now` (a calendar day
with a four-digit year), whenever `checkDate` returns no error the resulting date is a valid
YYYYMMDD date that is not before the day of `now`.  Hence, for every request and every
store: create either leaves the store as it was without any store call, or applies
`db.AddTask` to exactly one task, whose date is such a date, and its store and reply are the
ones `db.AddTask` returned on that task; likewise update with `db.UpdateTask`.  On the store
of the specification every record that create or update adds or replaces has such a
date. -/
theorem normalized_date_not_past {σ : Type} (E : Engine) (D : Db σ) (now : Time)
    (task : Task) (hA : E.IsBeforeContract) (hN : E.NextContract) (hnow : now.valid)
    (hok : (checkDate E now task).err = none) :
    dateOk now (checkDate E now task).task.Date = true ∧
    (∀ (body : Option Task) (s : σ),
      ∀ t ∈ storedTasks (addTaskHandle E D now body s).calls, dateOk now t.Date = true) ∧
    (∀ (body : Option Task) (s : σ),
      ∀ t ∈ storedTasks (updateTaskHandle E D now body s).calls, dateOk now t.Date = true) ∧
    (∀ (body : Option Task) (s : σ),
      ((addTaskHandle E D now body s).store = s ∧
        storeCalls (addTaskHandle E D now body s).calls = 0) ∨
      ∃ t, dateOk now t.Date = true ∧
        storedTasks (addTaskHandle E D now body s).calls = [t] ∧
        (addTaskHandle E D now body s).store = (D.AddTask t s).2 ∧
        (addTaskHandle E D now body s).resp
          = (match (D.AddTask t s).1 with
              | .ok id => .id id
              | .error _ => .error "database error")) ∧
    (∀ (body : Option Task) (s : σ),
      ((updateTaskHandle E D now body s).store = s ∧
        storeCalls (updateTaskHandle E D now body s).calls = 0) ∨
      ∃ t, dateOk now t.Date = true ∧
        storedTasks (updateTaskHandle E D now body s).calls = [t] ∧
        (updateTaskHandle E D now body s).store = (D.UpdateTask t s).2 ∧
        (updateTaskHandle E D now body s).resp
          = (match (D.UpdateTask t s).1 with
              | some msg => .error msg
              | none => .empty)) ∧
    (∀ (body : Option Task) (s : Store),
      ∀ r ∈ (addTaskHandle E specDb now body s).store.rows,
        r ∈ s.rows ∨ dateOk now r.Date = true) ∧
    (∀ (body : Option Task) (s : Store),
      ∀ r ∈ (updateTaskHandle E specDb now body s).store.rows,
        r ∈ s.rows ∨ dateOk now r.Date = true) := by
  refine ⟨checkDate_dateOk E now task hA hN hnow hok, ?_, ?_, ?_, ?_, ?_, ?_⟩
  · intro body s t ht
    obtain ⟨task2, _, _, he, rfl⟩ := addTaskHandle_stored E D now body s t ht
    exact checkDate_dateOk E now task2 hA hN hnow he
  · intro body s t ht
    obtain ⟨task2, _, _, _, he, rfl⟩ := updateTaskHandle_stored E D now body s t ht
    exact checkDate_dateOk E now task2 hA hN hnow he
  · intro body s
    rcases addTaskHandle_handover E D now body s with ⟨h1, h2, _⟩ | ⟨task2, _, _, he, h1, h2, h3⟩
    · exact Or.inl ⟨h1, h2⟩
    · exact Or.inr ⟨_, checkDate_dateOk E now task2 hA hN hnow he, h1, h2, h3⟩
  · intro body s
    rcases updateTaskHandle_handover E D now body s with
      ⟨h1, h2, _⟩ | ⟨task2, _, _, _, he, h1, h2, h3⟩
    · exact Or.inl ⟨h1, h2⟩
    · exact Or.inr ⟨_, checkDate_dateOk E now task2 hA hN hnow he, h1, h2, h3⟩
  · intro body s r hr
    rcases addTaskHandle_handover E specDb now body s with
      ⟨h1, _, _⟩ | ⟨task2, _, _, he, _, h2, _⟩
    · rw [h1] at hr; exact Or.inl hr
    · rw [h2] at hr
      simp only [specDb, Store.Insert, List.mem_append, List.mem_singleton] at hr
      rcases hr with hr | hr
      · exact Or.inl hr
      · right
        rw [hr]
        exact checkDate_dateOk E now task2 hA hN hnow he
  · intro body s r hr
    rcases updateTaskHandle_handover E specDb now body s with
      ⟨h1, _, _⟩ | ⟨task2, _, _, _, he, _, h2, _⟩
    · rw [h1] at hr; exact Or.inl hr
    · rw [h2] at hr
      simp only [specDb, Store.Update] at hr
      split_ifs at hr
      · simp only [List.mem_map] at hr
        obtain ⟨r0, hr0, hr1⟩ := hr
        split_ifs at hr1
        · right
          rw [← hr1]
          exact checkDate_dateOk E now task2 hA hN hnow he
        · left
          rw [← hr1]; exact hr0
      · exact Or.inl hr

/-- C8 at the daily task, whose date becomes 16 January when normalised on 15 January, and
at create of the lapsed one-off task, which is stored under a new id with today's date. -/
theorem normalized_date_not_past_witness :
    (sampleEngine.IsBeforeContract ∧ sampleEngine.NextContract ∧ jan15.valid ∧
      (checkDate sampleEngine jan15 standupTask).err = none) ∧
    (checkDate sampleEngine jan15 standupTask).task.Date = "20240116" ∧
    dateOk jan15 (checkDate sampleEngine jan15 standupTask).task.Date = true ∧
    (addTaskHandle sampleEngine specDb jan15 (some rentTask) sampleStore).store.rows
      = sampleStore.rows ++ [⟨"10", "20240115", "Pay rent", "", ""⟩] ∧
    (∀ r ∈ (addTaskHandle sampleEngine specDb jan15 (some rentTask) sampleStore).store.rows,
      r ∈ sampleStore.rows ∨ dateOk jan15 r.Date = true) ∧
    (updateTaskHandle sampleEngine specDb jan15 (some rentTask) sampleStore).store.rows
      = [⟨"7", "20240115", "Pay rent", "", ""⟩, standupTask, oddTask] ∧
    (∀ r ∈ (updateTaskHandle sampleEngine specDb jan15 (some rentTask) sampleStore).store.rows,
      r ∈ sampleStore.rows ∨ dateOk jan15 r.Date = true) := by
  have h := normalized_date_not_past sampleEngine specDb jan15 standupTask
    sampleEngine_isBefore sampleEngine_next (by decide) (by decide)
  exact ⟨⟨sampleEngine_isBefore, sampleEngine_next, by decide, by decide⟩, by decide, h.1,
    by decide, h.2.2.2.2.2.1 (some rentTask) sampleStore, by decide,
    h.2.2.2.2.2.2 (some rentTask) sampleStore⟩

/-- C9: create with an empty title answers "title is required"; update answers
"Не указан идентификатор" (id required) when the id is empty, and "title is required" when
the id is present and the title is empty.  In each of these cases the store is untouched and
no effect at all is performed: no clock read or engine call (the date normaliser is not run)
and no store call.  Hence every task handed to `db.AddTask` or `db.UpdateTask` has a
non-empty title. -/
theorem title_and_id_required {σ : Type} (E : Engine) (D : Db σ) (now : Time) (s : σ)
    (id date title comment rule : String) :
    addTaskHandle E D now (some ⟨id, date, "", comment, rule⟩) s
      = ⟨.error "title is required", s, []⟩ ∧
    updateTaskHandle E D now (some ⟨"", date, title, comment, rule⟩) s
      = ⟨.error "Не указан идентификатор", s, []⟩ ∧
    updateTaskHandle E D now (some ⟨id, date, "", comment, rule⟩) s
      = ⟨if id = "" then .error "Не указан идентификатор" else .error "title is required",
          s, []⟩ ∧
    (∀ body : Option Task,
      ∀ t ∈ storedTasks (addTaskHandle E D now body s).calls, t.Title ≠ "") ∧
    (∀ body : Option Task,
      ∀ t ∈ storedTasks (updateTaskHandle E D now body s).calls, t.Title ≠ "") := by
  refine ⟨by simp [addTaskHandle], by simp [updateTaskHandle], ?_, ?_, ?_⟩
  · by_cases hI : id = "" <;> simp [updateTaskHandle, hI]
  · intro body t ht
    obtain ⟨task, _, hT, _, rfl⟩ := addTaskHandle_stored E D now body s t ht
    rw [checkDate_title]; exact hT
  · intro body t ht
    obtain ⟨task, _, _, hT, _, rfl⟩ := updateTaskHandle_stored E D now body s t ht
    rw [checkDate_title]; exact hT

/-! ## Store round trips -/

/-- C10 as stated fails: completing the stored one-off task 7 makes two store calls
(`db.GetTask`, then `db.DeleteTask`), not at most one; and completing the stored repeating
task 9, whose rule the engine rejects, makes one store call, not two. -/
theorem taskDone_store_calls_differ :
    Store.Get "7" sampleStore = .ok rentTask ∧ rentTask.Repeat = "" ∧
    (taskDoneHandle sampleEngine specDb jan15 "7" sampleStore).calls
      = [.GetTask "7", .DeleteTask "7"] ∧
    storeCalls (taskDoneHandle sampleEngine specDb jan15 "7" sampleStore).calls = 2 ∧
    Store.Get "9" sampleStore = .ok oddTask ∧ oddTask.Repeat ≠ "" ∧
    storeCalls (taskDoneHandle sampleEngine specDb jan15 "9" sampleStore).calls = 1 :=
  ⟨rfl, rfl, by decide, by decide, rfl, by decide, by decide⟩

/-- C10 amended: create, read, update, list and delete make at most one store call each.
Complete makes at most two: none when the id is empty, one when the fetch fails, two when
the fetched task has an empty repeat (fetch, then delete), and for a non-empty repeat two
when `scheduler.NextDate` returns a date (fetch, then date update) and one when it fails. -/
theorem store_calls_bound {σ : Type} (E : Engine) (D : Db σ) (now : Time)
    (body : Option Task) (id : String) (isGet : Bool) (s : σ) :
    storeCalls (addTaskHandle E D now body s).calls ≤ 1 ∧
    storeCalls (getTaskHandle D id s).calls ≤ 1 ∧
    storeCalls (updateTaskHandle E D now body s).calls ≤ 1 ∧
    storeCalls (tasksHandler D isGet s).calls ≤ 1 ∧
    storeCalls (deleteTaskHandle D id s).calls ≤ 1 ∧
    storeCalls (taskDoneHandle E D now id s).calls ≤ 2 ∧
    storeCalls (taskDoneHandle E D now id s).calls =
      (if id = "" then 0
       else
        match D.GetTask id s with
        | (.error _, _) => 1
        | (.ok task, _) =>
          if task.Repeat = "" then 2
          else
            match E.NextDate now task.Date task.Repeat with
            | .error _ => 1
            | .ok _ => 2) := by
  have hdone : storeCalls (taskDoneHandle E D now id s).calls =
      (if id = "" then 0
       else
        match D.GetTask id s with
        | (.error _, _) => 1
        | (.ok task, _) =>
          if task.Repeat = "" then 2
          else
            match E.NextDate now task.Date task.Repeat with
            | .error _ => 1
            | .ok _ => 2) := by
    unfold taskDoneHandle
    by_cases hid : id = ""
    · simp [hid, storeCalls]
    · simp only [hid, ↓reduceIte]
      rcases hg : D.GetTask id s with ⟨r, s1⟩
      cases r with
      | error e => simp [storeCalls, Call.isStore]
      | ok task =>
        dsimp only
        by_cases hr : task.Repeat = ""
        · simp only [hr, ↓reduceIte]
          rcases hd : D.DeleteTask id s1 with ⟨r2, s2⟩
          cases r2 <;> simp [storeCalls, Call.isStore]
        · simp only [hr, ↓reduceIte]
          cases hn : E.NextDate now task.Date task.Repeat with
          | error e => simp [storeCalls, Call.isStore]
          | ok d =>
            dsimp only
            rcases hu : D.UpdateDate d id s1 with ⟨r2, s2⟩
            cases r2 <;> simp [storeCalls, Call.isStore]
  refine ⟨?_, ?_, ?_, ?_, ?_, ?_, hdone⟩
  · cases body with
    | none => simp [addTaskHandle, storeCalls]
    | some task =>
      by_cases hT : task.Title = ""
      · simp [addTaskHandle, hT, storeCalls]
      · cases he : (checkDate E now task).err with
        | some msg => simp [addTaskHandle, hT, he, (checkDate_stored E now task).2]
        | none =>
          simp only [addTaskHandle, hT, he, ↓reduceIte]
          rcases hd : D.AddTask (checkDate E now task).task s with ⟨r, s1⟩
          cases r <;>
            (dsimp only
             rw [storeCalls_append, (checkDate_stored E now task).2]
             simp [storeCalls, Call.isStore])
  · unfold getTaskHandle
    by_cases hid : id = ""
    · simp [hid, storeCalls]
    · simp only [hid, ↓reduceIte]
      rcases hg : D.GetTask id s with ⟨r, s1⟩
      cases r <;> simp [storeCalls, Call.isStore]
  · cases body with
    | none => simp [updateTaskHandle, storeCalls]
    | some task =>
      by_cases hI : task.ID = ""
      · simp [updateTaskHandle, hI, storeCalls]
      by_cases hT : task.Title = ""
      · simp [updateTaskHandle, hI, hT, storeCalls]
      · cases he : (checkDate E now task).err with
        | some msg => simp [updateTaskHandle, hI, hT, he, (checkDate_stored E now task).2]
        | none =>
          simp only [updateTaskHandle, hI, hT, he, ↓reduceIte]
          rcases hd : D.UpdateTask (checkDate E now task).task s with ⟨r, s1⟩
          cases r <;>
            (dsimp only
             rw [storeCalls_append, (checkDate_stored E now task).2]
             simp [storeCalls, Call.isStore])
  · unfold tasksHandler
    cases isGet with
    | false => simp [storeCalls]
    | true =>
      simp only [Bool.true_eq_false, ↓reduceIte]
      rcases hg : D.Tasks 50 s with ⟨r, s1⟩
      cases r <;> simp [storeCalls, Call.isStore]
  · unfold deleteTaskHandle
    by_cases hid : id = ""
    · simp [hid, storeCalls]
    · simp only [hid, ↓reduceIte]
      rcases hg : D.DeleteTask id s with ⟨r, s1⟩
      cases r <;> simp [storeCalls, Call.isStore]
  · rw [hdone]
    split_ifs
    · omega
    · split
      · omega
      · split_ifs
        · omega
        · split <;> omega

end GoFinal
